import Mathlib

/-!
Shallow embedding of the ONVIF interface generator (processor.ts).

The embedding follows the current revision of the processor module: the pure
string helpers (dataTypes, cleanName, camelCase, formatComment), the schema
input shapes produced by the xml2js parser (attributes live on a reserved
meta object; every present child element is a non-empty array, so a child
whose only consumed entry is the first is embedded as that entry), the
TypeScript declaration nodes that the generator emits (only the fields the
generator decides: names, heritage, members, optionality, array-ness,
attached documentation), and the stateful Processor operations addNode,
createProperty, generateComplexTypeInterface, generateElementType and
suffix.  JavaScript truthiness on optional string attributes (undefined or
empty string are both falsy) is made explicit through jsFalsy.  Thrown
errors and crashes are modelled with Except.
-/

set_option maxRecDepth 4000

/-- JavaScript truthiness of an optional string attribute: an absent
attribute (undefined) and the empty string are both falsy. -/
def jsFalsy : Option String → Bool
  | none => true
  | some s => s.data.isEmpty

/-- JavaScript template-literal rendering of a possibly-undefined string. -/
def jsStr : Option String → String
  | none => "undefined"
  | some s => s

/-- xsdType.slice(xsdType.indexOf(':') + 1): drop everything up to and
including the first colon; the whole string when there is no colon. -/
def localPart (s : String) : String :=
  if s.data.contains ':' then ⟨(s.data.dropWhile (fun c => c ≠ ':')).drop 1⟩ else s

/-- The primitive type mapper (function dataTypes): a fixed table from
qualified schema names to target type names, with the local name as the
fallback and the universal unknown type for an absent (or empty) name. -/
def dataTypes (xsdType : Option String) : String :=
  if jsFalsy xsdType then "unknown" else
  let s := jsStr xsdType
  if s = "xs:double" then "number"
  else if s = "xs:float" then "number"
  else if s = "xs:int" then "number"
  else if s = "xs:integer" then "number"
  else if s = "xs:short" then "number"
  else if s = "xs:signedInt" then "number"
  else if s = "xs:unsignedInt" then "number"
  else if s = "xs:unsignedShort" then "number"
  else if s = "xs:dateTime" then "Date"
  else if s = "xs:token" then "string"
  else if s = "xs:anyURI" then "AnyURI"
  else if s = "xs:anyType" then "any"
  else if s = "xs:hexBinary" then "unknown"
  else if s = "xs:base64Binary" then "unknown"
  else if s = "xs:duration" then "Duration"
  else if s = "wsnt:NotificationMessageHolderType" then "unknown"
  else if s = "soapenv:Envelope" then "unknown"
  else if s = "soapenv:Fault" then "unknown"
  else if s = "xs:anySimpleType" then "unknown"
  else if s = "xs:QName" then "unknown"
  else if s = "wsnt:TopicExpressionType" then "unknown"
  else if s = "wsnt:QueryExpressionType" then "unknown"
  else if s = "wsnt:AbsoluteOrRelativeTimeType" then "unknown"
  else if s = "wsa:EndpointReferenceType" then "unknown"
  else if s = "mpqf:MpegQueryType" then "unknown"
  else if s = "xs:positiveInteger" then "PositiveInteger"
  else if s = "xs:nonNegativeInteger" then "number"
  else if s = "tt:Object" then "unknown"
  else if s = "xs:time" then "Time"
  else localPart s

/-- name.replace with the hyphen-or-period character class and the empty
replacement, after renaming the literal name Object to OnvifObject. -/
def cleanName (name : String) : String :=
  if name = "Object" then "OnvifObject"
  else ⟨name.data.filter (fun c => !(c == '-' || c == '.'))⟩

/-- Lower-case the first character of a character list. -/
def lowerFirst : List Char → List Char
  | [] => []
  | c :: cs => c.toLower :: cs

/-- The character class of the quoting test: a hyphen or a period. -/
def hasSepChar (cs : List Char) : Bool :=
  cs.any (fun c => c == '-' || c == '.')

/-- The single-quote character used for literal-key quoting. -/
def quoteChar : Char := Char.ofNat 39

/-- The field-name normalizer (function camelCase): lower-case the leading
character when a second character exists and is changed by toUpperCase,
then wrap the name in single quotes when it contains a hyphen or period. -/
def camelCase (name : String) : String :=
  let cs := name.data
  let cs1 :=
    match cs with
    | _ :: c2 :: _ => if c2.toUpper ≠ c2 then lowerFirst cs else cs
    | _ => cs
  if hasSepChar cs1 then ⟨quoteChar :: (cs1 ++ [quoteChar])⟩ else ⟨cs1⟩

/-- The global replace of markup tags: each maximal segment from an opening
angle bracket through the first following closing angle bracket is removed;
an opening bracket with no later closing bracket is kept. -/
def stripTags : List Char → List Char
  | [] => []
  | c :: cs =>
    if c == '<' && cs.contains '>' then
      stripTags ((cs.dropWhile (fun d => d ≠ '>')).drop 1)
    else
      c :: stripTags cs
termination_by cs => cs.length
decreasing_by
  all_goals simp only [List.length_drop, List.length_cons]
  · have h1 := (List.dropWhile_sublist (fun d => decide (d ≠ '>')) (l := cs)).length_le
    omega
  · omega

/-- Strip leading and trailing whitespace from a line. -/
def jsTrim (cs : List Char) : List Char :=
  ((cs.dropWhile Char.isWhitespace).reverse.dropWhile Char.isWhitespace).reverse

/-- str.split on the newline character. -/
def splitLines : List Char → List (List Char)
  | [] => [[]]
  | c :: cs =>
    if c = '\n' then [] :: splitLines cs
    else
      match splitLines cs with
      | [] => [[c]]
      | l :: ls => (c :: l) :: ls

/-- Array.prototype.join with the given separator. -/
def joinWith (sep : String) : List String → String
  | [] => ""
  | [x] => x
  | x :: xs => x ++ sep ++ joinWith sep xs

/-- The documentation formatter (function formatComment): split on newlines,
drop blank lines, trim and strip markup from each line, then render one line
as a single-line comment body and several lines as a block body. -/
def formatComment (str : String) : String :=
  let strs := ((splitLines str.data).filter (fun a => !(jsTrim a).isEmpty)).map
    (fun a => (⟨stripTags (jsTrim a)⟩ : String))
  match strs with
  | [] => ""
  | [one] => "* " ++ one ++ " "
  | first :: others =>
      "*\n * " ++ first ++ "\n" ++
        joinWith "\n" (others.map (fun a => " * " ++ a)) ++ "\n "

/-! ## Emitted declaration nodes (the slice of the TypeScript factory output
that the generator decides). -/

/-- A type position in an emitted member: a named type reference, possibly
wrapped as an array type. -/
inductive TsType where
  | ref (name : String)
  | array (elem : TsType)
  deriving Repr, DecidableEq

/-- An emitted property signature: the (camelCased) member name, whether the
question token is attached, the member type, and an optional leading
documentation comment. -/
structure PropertySignature where
  name : String
  questionToken : Bool
  type : TsType
  comment : Option String := none
  deriving Repr, DecidableEq

/-- The node kinds the embedded operations emit. -/
inductive TsKind where
  | importDecl (fileName : String) (types : List String)
  | identifier (text : String)
  | interfaceDecl (name : String) (heritage : Option String)
      (members : List PropertySignature)
  deriving Repr, DecidableEq

/-- An emitted node together with its optional leading comment. -/
structure TsNode where
  kind : TsKind
  comment : Option String := none
  deriving Repr, DecidableEq

/-! ## Parsed schema input shapes (xml2js with attrkey meta). -/

/-- The reserved attribute object of a parsed schema node; every attribute is
optional.  The source key namespace is spelled nspace (a Lean keyword). -/
structure Meta where
  name : Option String := none
  type : Option String := none
  ref : Option String := none
  maxOccurs : Option String := none
  minOccurs : Option String := none
  use : Option String := none
  nspace : Option String := none
  processContents : Option String := none
  deriving Repr, DecidableEq

/-- A parsed annotation: either a bare string child, or the first entry of
the documentation array (per the parser contract that arrays of present
children are non-empty). -/
inductive AnnNode where
  | raw (s : String)
  | doc (s : String)
  deriving Repr, DecidableEq

/-- The text createAnnotationIfExists reads from an annotation. -/
def annText : AnnNode → String
  | .raw s => s
  | .doc s => s

/-- An attribute or element record handed to createProperty. -/
structure IAttribute where
  meta : Meta
  ann : Option AnnNode := none
  deriving Repr, DecidableEq

/-- The wildcard entry of a sequence (first entry of the parsed array). -/
structure AnyInfo where
  nspace : Option String := none
  processContents : Option String := none
  ann : Option AnnNode := none
  deriving Repr, DecidableEq

mutual
/-- A parsed complex type: its meta attributes, the optional complexContent
extension (first entry of the nested arrays), the optional attribute list,
the optional sequence (first entry), and an optional annotation. -/
inductive IComplexType where
  | mk (meta : Meta) (complexContent : Option ExtensionInfo)
      (attrs : Option (List IAttribute))
      (sequence : Option SequenceInfo)
      (ann : Option AnnNode)

/-- The extension inside complexContent: its base attribute and the spliced
sequence and attribute content. -/
inductive ExtensionInfo where
  | mk (base : String) (sequence : Option SequenceInfo)
      (attrs : Option (List IAttribute))

/-- A parsed sequence: its element child when it parsed as an array, and
the first entry of its wildcard child. -/
inductive SequenceInfo where
  | mk (element : Option (List ElementInfo)) (anyEl : Option AnyInfo)

/-- An element inside a sequence: meta attributes, an optional inline
anonymous complex type (first entry), and an optional annotation. -/
inductive ElementInfo where
  | mk (meta : Meta) (inner : Option IComplexType) (ann : Option AnnNode)
end

def IComplexType.meta : IComplexType → Meta
  | .mk m _ _ _ _ => m

def IComplexType.complexContent : IComplexType → Option ExtensionInfo
  | .mk _ cc _ _ _ => cc

def IComplexType.attrs : IComplexType → Option (List IAttribute)
  | .mk _ _ attrs _ _ => attrs

def IComplexType.sequence : IComplexType → Option SequenceInfo
  | .mk _ _ _ sq _ => sq

def IComplexType.ann : IComplexType → Option AnnNode
  | .mk _ _ _ _ a => a

def ExtensionInfo.base : ExtensionInfo → String
  | .mk b _ _ => b

def ExtensionInfo.sequence : ExtensionInfo → Option SequenceInfo
  | .mk _ sq _ => sq

def ExtensionInfo.attrs : ExtensionInfo → Option (List IAttribute)
  | .mk _ _ attrs => attrs

def SequenceInfo.element : SequenceInfo → Option (List ElementInfo)
  | .mk els _ => els

def SequenceInfo.anyEl : SequenceInfo → Option AnyInfo
  | .mk _ a => a

def ElementInfo.meta : ElementInfo → Meta
  | .mk m _ _ => m

def ElementInfo.inner : ElementInfo → Option IComplexType
  | .mk _ i _ => i

def ElementInfo.ann : ElementInfo → Option AnnNode
  | .mk _ _ a => a

/-- A top-level element declaration: meta attributes, the optional inline
complex type (first entry of the array, when it parsed as an object), and
an optional annotation. -/
structure IElement where
  meta : Meta
  complexType : Option IComplexType := none
  ann : Option AnnNode := none

/-! ## Processor state. -/

/-- The Type Registry handed between processors: a JavaScript Map from type
name to the owning module record; every write sets the record's name field,
so the value is embedded as the owning module name. -/
abbrev Links := List (String × String)

/-- JavaScript Set insertion: append when absent, keep insertion order. -/
def setAdd (s : List String) (x : String) : List String :=
  if s.contains x then s else s ++ [x]

/-- JavaScript Map set: overwrite in place when the key exists, append
otherwise. -/
def mapSet (m : Links) (k v : String) : Links :=
  if (m.lookup k).isSome then
    m.map (fun pr => if pr.1 = k then (pr.1, v) else pr)
  else m ++ [(k, v)]

/-- The mutable state of one Processor instance, together with the shared
registry reference (links) and the console.warn stream of suffix. -/
structure Processor where
  fileName : String
  nodes : List TsNode := []
  declaredTypes : List String := []
  usedTypes : List String := []
  links : Links := []
  warnings : List String := []
  deriving Repr, DecidableEq

/-- The errors a generation call can surface: the deliberate throw on a
sequence next to complexContent, and the crash of camelCase or cleanName on
an undefined name (a TypeError in the source). -/
inductive GenError where
  | sequenceInComplexContent
  | missingName
  deriving Repr, DecidableEq

/-- Attach the formatted annotation text to a node (createAnnotationIfExists
on a declaration node). -/
def annotateNode (ann : Option AnnNode) (kind : TsKind) : TsNode :=
  match ann with
  | none => { kind }
  | some a => { kind, comment := some (formatComment (annText a)) }

/-- Attach the formatted annotation text to a property signature
(createAnnotationIfExists on a member). -/
def annotateProp (ann : Option AnnNode) (prop : PropertySignature) : PropertySignature :=
  match ann with
  | none => prop
  | some a => { prop with comment := some (formatComment (annText a)) }

/-- Processor.addNode: register the name in the shared registry only when it
is absent; then drop the node when this module already declared the name,
and otherwise record the declaration and push the node. -/
def addNode (p : Processor) (name : String) (node : TsNode) : Processor :=
  let links := if (p.links.lookup name).isSome then p.links
               else mapSet p.links name p.fileName
  if p.declaredTypes.contains name then { p with links }
  else { p with links,
                declaredTypes := p.declaredTypes ++ [name],
                nodes := p.nodes ++ [node] }

/-- Processor.extendInterface: for a truthy name, mark it used and build the
heritage clause; otherwise no heritage. -/
def extendInterface (p : Processor) (interfaceName : String) : Processor × Option String :=
  if interfaceName.data.isEmpty then (p, none)
  else ({ p with usedTypes := setAdd p.usedTypes interfaceName }, some interfaceName)

/-- The condition under which createProperty marks a type name used:
typeName.charAt(0) === typeName.charAt(0).toUpperCase(), which also holds
for the empty name. -/
def startsUpperLike (typeName : String) : Bool :=
  match typeName.data with
  | [] => true
  | c :: _ => c.toUpper == c

/-- Processor.createProperty: map the schema type, resolve a missing name
from the ref attribute (dropping the fixed-length prefix), wrap unbounded
occurrences as arrays, decide the question token from use and the occurrence
attributes, record used capitalized type names, and attach documentation.
A name that stays undefined crashes camelCase (missingName). -/
def createProperty (p : Processor) (a : IAttribute) : Except GenError (PropertySignature × Processor) :=
  let typeName := cleanName (dataTypes a.meta.type)
  let baseType := TsType.ref typeName
  let nameOpt : Option String :=
    if jsFalsy a.meta.name && !(jsFalsy a.meta.ref) then
      some (⟨(jsStr a.meta.ref).data.drop 6⟩ : String)
    else a.meta.name
  match nameOpt with
  | none => .error .missingName
  | some nm =>
    let ty := if a.meta.maxOccurs == some "unbounded" then TsType.array baseType else baseType
    let isRequired : Bool :=
      (a.meta.use == some "required" || a.meta.minOccurs == some "1" ||
        (jsFalsy a.meta.minOccurs && jsFalsy a.meta.maxOccurs)) &&
      !(a.meta.use == some "optional")
    let prop : PropertySignature :=
      { name := camelCase nm, questionToken := !isRequired, type := ty }
    let p1 := if startsUpperLike typeName then
                { p with usedTypes := setAdd p.usedTypes typeName }
              else p
    .ok (annotateProp a.ann prop, p1)

/-- The use-attribute default applied to a complex type's own attribute
records before createProperty: attributes are optional unless explicitly
required. -/
def defaultUse (a : IAttribute) : IAttribute :=
  if a.meta.use == some "required" then a
  else { a with meta := { a.meta with use := some "optional" } }

/-- Map createProperty over a complex type's attribute records (after the
use default), threading the processor state and stopping at the first
crash. -/
def genAttrs (p : Processor) : List IAttribute → Except GenError (List PropertySignature × Processor)
  | [] => .ok ([], p)
  | a :: rest =>
    match createProperty p (defaultUse a) with
    | .error e => .error e
    | .ok (prop, p1) =>
      match genAttrs p1 rest with
      | .error e => .error e
      | .ok (props, p2) => .ok (prop :: props, p2)

/-- The open index-signature member contributed by an unrestricted-namespace
wildcard: a string-keyed member of the universal unknown type, carrying the
wildcard's documentation. -/
def wildcardMembers (anyEl : Option AnyInfo) : List PropertySignature :=
  match anyEl with
  | some a =>
    if a.nspace == some "##any" then
      [annotateProp a.ann
        { name := "[key: string]", questionToken := false, type := .ref "unknown" }]
    else []
  | none => []

mutual
/-- Processor.generateComplexTypeInterface with the meta object passed as a
separate argument (the source mutates a nested type's meta object before
recursing into it); the wrapper generateComplexTypeInterface passes the
type's own meta.  The complexContent branch strips the base's namespace
prefix, silently drops a type that inherits itself, marks the base used and
builds the heritage, throws when an own sequence coexists with the
extension, and splices the extension's sequence and attributes in. -/
def genCT (p : Processor) (m : Meta) (ct : IComplexType) : Except GenError Processor :=
  match m.name, ct with
  | none, _ => .error .missingName
  | some nm, .mk _ (some (.mk base extSeq extAttrs)) ownAttrs ownSeq ann =>
    if nm = localPart base then .ok p
    else
      let pr := extendInterface p (localPart base)
      if ownSeq.isSome then .error .sequenceInComplexContent
      else
        let attrs :=
          match extAttrs with
          | some a => some a
          | none => ownAttrs
        genBody pr.1 nm pr.2 attrs extSeq ann
  | some nm, .mk _ none ownAttrs ownSeq ann =>
    genBody p nm none ownAttrs ownSeq ann
termination_by structural ct

/-- The shared tail of generateComplexTypeInterface: attribute members
first, then sequence members — with the Capabilities early return and the
wildcard index signature in the no-element-array branch, and element
properties plus the wildcard index signature otherwise — and finally the
interface declaration pushed through addNode under the raw type name. -/
def genBody (p : Processor) (nm : String) (heritage : Option String)
    (attrs : Option (List IAttribute)) (seq : Option SequenceInfo)
    (ann : Option AnnNode) : Except GenError Processor :=
  match seq, genAttrs p (attrs.getD []) with
  | _, .error e => .error e
  | none, .ok (members0, p1) =>
    .ok (addNode p1 nm (annotateNode ann (.interfaceDecl (cleanName nm) heritage members0)))
  | some (.mk none anyEl), .ok (members0, p1) =>
    if nm = "Capabilities" then .ok p1
    else
      .ok (addNode p1 nm (annotateNode ann
        (.interfaceDecl (cleanName nm) heritage (members0 ++ wildcardMembers anyEl))))
  | some (.mk (some elList) anyEl), .ok (members0, p1) =>
    match genSeqEls p1 elList with
    | .error e => .error e
    | .ok (elMembers, p2) =>
      .ok (addNode p2 nm (annotateNode ann
        (.interfaceDecl (cleanName nm) heritage
          (members0 ++ elMembers ++ wildcardMembers anyEl))))
termination_by structural seq

/-- The element mapper of generateComplexTypeInterface: an element carrying
an inline anonymous complex type is first promoted recursively (its meta
replaced by the enclosing element's name with use optional) and the
element's property is retyped to the tt-qualified name; every element then
becomes a property through createProperty. -/
def genSeqEls (p : Processor) (els : List ElementInfo) :
    Except GenError (List PropertySignature × Processor) :=
  match els with
  | [] => .ok ([], p)
  | .mk m inner ann :: rest =>
    match inner with
    | some ict =>
      match genCT p { name := m.name, use := some "optional" } ict with
      | .error e => .error e
      | .ok p1 =>
        let m1 := { m with type := some ("tt:" ++ jsStr m.name) }
        match createProperty p1 { meta := m1, ann := ann } with
        | .error e => .error e
        | .ok (prop, p2) =>
          match genSeqEls p2 rest with
          | .error e => .error e
          | .ok (props, p3) => .ok (prop :: props, p3)
    | none =>
      match createProperty p { meta := m, ann := ann } with
      | .error e => .error e
      | .ok (prop, p1) =>
        match genSeqEls p1 rest with
        | .error e => .error e
        | .ok (props, p2) => .ok (prop :: props, p2)
termination_by structural els
end

/-- Processor.generateComplexTypeInterface. -/
def generateComplexTypeInterface (p : Processor) (ct : IComplexType) : Except GenError Processor :=
  genCT p ct.meta ct

/-- Processor.generateElementType: an element wrapping an inline complex
type is promoted under the element's name; otherwise, with a truthy type
attribute, the devicemgmt Capabilities special case emits nothing, a
self-inheriting alias is dropped, and every other element becomes an empty
interface inheriting the referenced type. -/
def generateElementType (p : Processor) (el : IElement) : Except GenError Processor :=
  match el.complexType with
  | some ict => genCT p { name := el.meta.name, use := some "optional" } ict
  | none =>
    if jsFalsy el.meta.type then .ok p
    else
      let t := jsStr el.meta.type
      if p.fileName == "devicemgmt" && el.meta.name == some "Capabilities" &&
          t == "tds:DeviceServiceCapabilities" then
        .ok p
      else
        match el.meta.name with
        | none => .error .missingName
        | some nm0 =>
          let name := cleanName nm0
          let extendsName := cleanName t
          let heritageName := localPart extendsName
          if name = heritageName then .ok p
          else
            let pr := extendInterface p heritageName
            .ok (addNode pr.1 name (annotateNode el.ann (.interfaceDecl name pr.2 [])))

/-! ## The import resolver pass (suffix). -/

/-- One step of the import grouping record: push the type onto its module's
list when the module key is present, or append a new group for it. -/
def groupInsert (imports : List (String × List String)) (fn t : String) :
    List (String × List String) :=
  if (imports.lookup fn).isSome then
    imports.map (fun pr => if pr.1 = fn then (pr.1, pr.2 ++ [t]) else pr)
  else imports ++ [(fn, [t])]

/-- The registry lookup of suffix: links.get(type)?.name with a falsy
result (absent entry or empty module name) treated as not found. -/
def truthyLookup (links : Links) (t : String) : Option String :=
  match links.lookup t with
  | some fn => if fn.data.isEmpty then none else some fn
  | none => none

/-- The loop of suffix over the needed names: a resolvable name joins its
owning module's group, an unresolvable one is appended to the warning
stream and omitted. -/
def computeImportsAux (links : Links) (imports : List (String × List String))
    (warns : List String) : List String → List (String × List String) × List String
  | [] => (imports, warns)
  | t :: rest =>
    match truthyLookup links t with
    | none => computeImportsAux links imports (warns ++ [t]) rest
    | some fn => computeImportsAux links (groupInsert imports fn t) warns rest

/-- The grouped imports and warnings of one suffix run. -/
def computeImports (links : Links) (diff : List String) :
    List (String × List String) × List String :=
  computeImportsAux links [] [] diff

/-- usedTypes.difference(declaredTypes), in the used set's insertion
order. -/
def importsNeeded (p : Processor) : List String :=
  p.usedTypes.filter (fun t => !(p.declaredTypes.contains t))

/-- Processor.suffix: compute the needed imports, group them into a single
clause per owning module, and unshift those (with a separating
identifier node) onto the module's declaration list. -/
def suffix (p : Processor) (links : Links) : Processor :=
  let grouped := computeImports links (importsNeeded p)
  let importNodes := grouped.1.map (fun pr => ({ kind := .importDecl pr.1 pr.2 } : TsNode))
  { p with
      nodes := importNodes ++ ({ kind := .identifier "\n" } : TsNode) :: p.nodes,
      warnings := p.warnings ++ grouped.2 }

/-- An arbitrary interleaving of addNode calls from any modules sharing the
registry: each step runs addNode on a processor for the given module wired
to the registry state left by the previous step. -/
def runAddNodes (links : Links) : List (String × String × TsNode) → Links
  | [] => links
  | (fn, nm, node) :: rest =>
      runAddNodes ((addNode { fileName := fn, links := links } nm node).links) rest

/-! ## Claim-level specification functions and concrete fixtures. -/

/-- The optionality precedence as the specification words it, reading
"present at all" as attribute existence: use optional wins, then use
required, minOccurs 1, or both occurrence attributes absent make the
property required, and everything else is optional. -/
def claimedOptionality (m : Meta) : Bool :=
  if m.use == some "optional" then true
  else if m.use == some "required" || m.minOccurs == some "1" ||
      (m.minOccurs == none && m.maxOccurs == none) then false
  else true

/-- The amended optionality precedence: identical to the claimed rule
except that the absence tests follow JavaScript truthiness, so an
empty-string occurrence attribute also counts as absent. -/
def amendedOptionality (m : Meta) : Bool :=
  if m.use == some "optional" then true
  else if m.use == some "required" || m.minOccurs == some "1" ||
      (jsFalsy m.minOccurs && jsFalsy m.maxOccurs) then false
  else true

/-- The question-token outcome of a createProperty run that succeeds. -/
def createdQuestionToken (p : Processor) (a : IAttribute) : Option Bool :=
  match createProperty p a with
  | .ok pr => some pr.1.questionToken
  | .error _ => none

/-- The field-name normalizer as the claim words it: lower-case the leading
character unless the second character is already lower-case, then quote on
a hyphen or period. -/
def camelCaseClaimed (name : String) : String :=
  let base :=
    match name.data with
    | _ :: c2 :: _ => if c2.isLower then name.data else lowerFirst name.data
    | _ => lowerFirst name.data
  if hasSepChar base then ⟨quoteChar :: (base ++ [quoteChar])⟩ else ⟨base⟩

/-- The amended wording of the camelCase rule: the leading character is
lower-cased exactly when a second character exists and is changed by
toUpperCase, and the (original) name is quoted exactly when it contains a
hyphen or a period. -/
def camelCaseAmended (name : String) : String :=
  let base :=
    match name.data with
    | c1 :: c2 :: rest => if c2.toUpper ≠ c2 then c1.toLower :: c2 :: rest else name.data
    | _ => name.data
  if hasSepChar name.data then ⟨quoteChar :: (base ++ [quoteChar])⟩ else ⟨base⟩

/-- A name is already clean when it contains no hyphen and no period. -/
def isCleanName (n : String) : Prop :=
  ∀ c ∈ n.data, c ≠ '-' ∧ c ≠ '.'

instance (n : String) : Decidable (isCleanName n) := by
  unfold isCleanName
  infer_instance

/-- An element record carrying no inline anonymous complex type. -/
def elInnerIsNone : ElementInfo → Bool
  | .mk _ none _ => true
  | .mk _ (some _) _ => false

/-- A sequence whose elements carry no inline anonymous complex types (so
its generation never recurses into another complex type). -/
def flatSeq : Option SequenceInfo → Bool
  | none => true
  | some (.mk none _) => true
  | some (.mk (some els) _) => els.all elInnerIsNone

/-- A processor for a module named f with empty state. -/
def pF : Processor := { fileName := "f" }

/-- An attribute with a name and an empty-string minOccurs: present but
falsy, separating the claimed rule from the code. -/
def attrEmptyMin : IAttribute := { meta := { name := some "x", minOccurs := some "" } }

/-- An attribute with only a name: no use, no occurrence attributes. -/
def attrPlain : IAttribute := { meta := { name := some "x" } }

/-- The property createProperty builds from attrPlain. -/
def propPlain : PropertySignature :=
  { name := "x", questionToken := false, type := .ref "unknown" }

def nodeA : TsNode := { kind := .identifier "a" }

def nodeB : TsNode := { kind := .identifier "b" }

/-- The first document declares T. -/
def pDocA : Processor := addNode { fileName := "fileA" } "T" nodeA

/-- A second document wired to the registry the first document left. -/
def pDocB0 : Processor := { fileName := "fileB", links := pDocA.links }

/-- The second document also declares T. -/
def pDocB : Processor := addNode pDocB0 "T" nodeB

/-- A complex type extending itself (base tt:A, own name A), no own
sequence. -/
def ctSelf : IComplexType :=
  .mk { name := some "A" } (some (.mk "tt:A" none none)) none none none

/-- A complex type extending itself while also carrying its own sequence. -/
def ctSelfSeq : IComplexType :=
  .mk { name := some "A" } (some (.mk "tt:A" none none)) none (some (.mk none none)) none

/-- A complex type with a foreign extension base and its own sequence. -/
def ctExtSeq : IComplexType :=
  .mk { name := some "A" } (some (.mk "tt:B" none none)) none (some (.mk none none)) none

/-- A complex type with a foreign extension base and no own sequence. -/
def ctExtNoSeq : IComplexType :=
  .mk { name := some "A" } (some (.mk "tt:B" none none)) none none none

/-- The wildcard entry with the unrestricted namespace. -/
def anyAll : AnyInfo := { nspace := some "##any" }

/-- A complex type whose only content is an unrestricted wildcard. -/
def ctWild : IComplexType :=
  .mk { name := some "Foo" } none none (some (.mk none (some anyAll))) none

/-- The same wildcard-only shape under the name Capabilities. -/
def ctWildCap : IComplexType :=
  .mk { name := some "Capabilities" } none none (some (.mk none (some anyAll))) none

/-- A processor for the devicemgmt module. -/
def pDev : Processor := { fileName := "devicemgmt" }

/-- The top-level Capabilities element of the devicemgmt module. -/
def elCapDev : IElement :=
  { meta := { name := some "Capabilities", type := some "tds:DeviceServiceCapabilities" } }

/-- An ordinary alias element: a named type reference and no inline type. -/
def elAlias : IElement := { meta := { name := some "E", type := some "tt:Base" } }

/-- A registry fixture for the import resolver: A owned by lib, B owned by
lib, C not registered. -/
def linksW : Links := [("A", "lib"), ("B", "lib")]

/-- A module that used A, B and C and declared B itself. -/
def pSuf : Processor :=
  { fileName := "m", usedTypes := ["A", "B", "C"], declaredTypes := ["B"],
    nodes := [nodeA] }

/-- A concrete interleaving of addNode calls from two modules. -/
def callsW : List (String × String × TsNode) :=
  [("fileB", "T", nodeB), ("fileC", "T", nodeA), ("fileC", "U", nodeA)]

/-! ## Helper lemmas. -/

theorem annotateProp_questionToken (ann : Option AnnNode) (pr : PropertySignature) :
    (annotateProp ann pr).questionToken = pr.questionToken := by
  cases ann <;> rfl

theorem toLower_sepEq (c : Char) :
    ((c.toLower == '-') || (c.toLower == '.')) = ((c == '-') || (c == '.')) := by
  by_cases h : c.toNat ≥ 65 ∧ c.toNat ≤ 90
  · have hlow : c.toLower = Char.ofNat (c.toNat + 32) := by
      show (if c.toNat ≥ 65 ∧ c.toNat ≤ 90 then Char.ofNat (c.toNat + 32) else c) =
        Char.ofNat (c.toNat + 32)
      exact if_pos h
    have hv : (c.toNat + 32).isValidChar := Or.inl (by omega)
    have ht : (Char.ofNat (c.toNat + 32)).toNat = c.toNat + 32 := by
      simp [Char.ofNat, hv]
      rfl
    have hdash : ('-' : Char).toNat = 45 := by decide
    have hdot : ('.' : Char).toNat = 46 := by decide
    have h1 : (Char.ofNat (c.toNat + 32) == '-') = false := by
      rw [beq_eq_false_iff_ne]
      intro he
      have hne := congrArg Char.toNat he
      rw [ht, hdash] at hne
      omega
    have h2 : (Char.ofNat (c.toNat + 32) == '.') = false := by
      rw [beq_eq_false_iff_ne]
      intro he
      have hne := congrArg Char.toNat he
      rw [ht, hdot] at hne
      omega
    have h3 : (c == '-') = false := by
      rw [beq_eq_false_iff_ne]
      intro he
      subst he
      rw [hdash] at h
      omega
    have h4 : (c == '.') = false := by
      rw [beq_eq_false_iff_ne]
      intro he
      subst he
      rw [hdot] at h
      omega
    rw [hlow, h1, h2, h3, h4]
  · have hlow : c.toLower = c := by
      show (if c.toNat ≥ 65 ∧ c.toNat ≤ 90 then Char.ofNat (c.toNat + 32) else c) = c
      exact if_neg h
    rw [hlow]

theorem hasSep_lowerFirst (cs : List Char) : hasSepChar (lowerFirst cs) = hasSepChar cs := by
  cases cs with
  | nil => rfl
  | cons c rest =>
    simp only [lowerFirst, hasSepChar, List.any_cons]
    rw [toLower_sepEq]

/-! ## Claim theorems. -/

/-- Claim C1, counterexample: an attribute with a present but empty-string
minOccurs (and no use, no maxOccurs) gets a required property from
createProperty, while the claimed precedence (minOccurs present and not
"1", so not in any required bullet) makes it optional. -/
theorem createProperty_claimedOptionality_cex :
    createdQuestionToken pF attrEmptyMin = some false
  ∧ claimedOptionality attrEmptyMin.meta = true := by
  constructor
  · rfl
  · rfl

/-- Claim C1, amended: for every attribute or element processed by
createProperty, the emitted property's optionality follows the precedence
with absence read as JavaScript falsiness: use optional makes it optional
unconditionally; otherwise use required, or minOccurs "1", or both
occurrence attributes absent-or-empty make it required; every other
combination is optional. -/
theorem createProperty_optionality (p : Processor) (a : IAttribute)
    (prop : PropertySignature) (p' : Processor)
    (h : createProperty p a = .ok (prop, p')) :
    prop.questionToken = amendedOptionality a.meta := by
  simp only [createProperty] at h
  split at h
  · exact Except.noConfusion h
  · simp only [Except.ok.injEq, Prod.mk.injEq] at h
    obtain ⟨hp, _⟩ := h
    subst hp
    rw [annotateProp_questionToken]
    simp only []
    cases hu : (a.meta.use == some "optional") with
    | true => simp [amendedOptionality, hu]
    | false =>
      cases hc : (a.meta.use == some "required" || a.meta.minOccurs == some "1" ||
          (jsFalsy a.meta.minOccurs && jsFalsy a.meta.maxOccurs)) with
      | true => simp [amendedOptionality, hu, hc]
      | false => simp [amendedOptionality, hu, hc]

/-- Claim C1 witness: the amended precedence evaluated on a plain named
attribute (no use, no occurrence attributes): required. -/
theorem createProperty_optionality_witness :
    propPlain.questionToken = amendedOptionality attrPlain.meta :=
  createProperty_optionality pF attrPlain propPlain pF (by rfl)

/-- Claim C8, counterexample: camelCase lower-cases the leading character
of a name whose second character is lower-case, while the claimed rule
("unless the second character is already lower-case") keeps it. -/
theorem camelCase_claimed_cex :
    camelCase "Name" = "name" ∧ camelCaseClaimed "Name" = "Name" := by
  constructor <;> rfl

/-- Claim C8, amended: camelCase lower-cases the leading character exactly
when the name's second character exists and is changed by upper-casing
(i.e. is a lower-case letter), and wraps the resulting name in literal-key
quoting exactly when the (original) name contains a hyphen or a period. -/
theorem camelCase_eq_amended (name : String) : camelCase name = camelCaseAmended name := by
  unfold camelCase camelCaseAmended
  cases hd : name.data with
  | nil => simp
  | cons c1 rest =>
    cases rest with
    | nil => simp
    | cons c2 rest2 =>
      have hsep := hasSep_lowerFirst (c1 :: c2 :: rest2)
      simp only [lowerFirst] at hsep
      by_cases h2 : c2.toUpper ≠ c2
      · simp only [if_pos h2, lowerFirst, hsep]
      · simp only [if_neg h2]

/-- Claim C9: cleanName is idempotent on every already-clean name, renames
Object to the non-colliding alias OnvifObject, and strips the separators of
a-b.c down to abc. -/
theorem cleanName_spec :
    (∀ n, isCleanName n → cleanName (cleanName n) = cleanName n)
  ∧ cleanName "Object" = "OnvifObject"
  ∧ cleanName "a-b.c" = "abc" := by
  refine ⟨?_, rfl, rfl⟩
  intro n hc
  by_cases hO : n = "Object"
  · subst hO
    rfl
  · have hfix : cleanName n = n := by
      unfold cleanName
      rw [if_neg hO]
      have hfil : n.data.filter (fun c => !(c == '-' || c == '.')) = n.data := by
        apply List.filter_eq_self.mpr
        intro c hcmem
        obtain ⟨h1, h2⟩ := hc c hcmem
        simp [h1, h2]
      rw [hfil]
    rw [hfix]
    exact hfix

/-- Claim C9 witness: idempotence evaluated at the clean name abc. -/
theorem cleanName_spec_witness :
    isCleanName "abc" ∧ cleanName (cleanName "abc") = cleanName "abc" :=
  ⟨by decide, cleanName_spec.1 "abc" (by decide)⟩

theorem createProperty_error_eq (p : Processor) (a : IAttribute) (e : GenError)
    (h : createProperty p a = .error e) : e = .missingName := by
  simp only [createProperty] at h
  split at h
  · injection h with h
    exact h.symm
  · exact Except.noConfusion h

theorem genAttrs_error_eq (p : Processor) (l : List IAttribute) (e : GenError)
    (h : genAttrs p l = .error e) : e = .missingName := by
  induction l generalizing p with
  | nil => simp [genAttrs] at h
  | cons a rest ih =>
    simp only [genAttrs] at h
    split at h
    · rename_i e1 he1
      injection h with h
      subst h
      exact createProperty_error_eq _ _ _ he1
    · split at h
      · rename_i e1 he1
        injection h with h
        subst h
        exact ih _ he1
      · exact Except.noConfusion h

theorem genSeqEls_flat_error_eq (p : Processor) (els : List ElementInfo) (e : GenError)
    (hflat : els.all elInnerIsNone = true)
    (h : genSeqEls p els = .error e) : e = .missingName := by
  induction els generalizing p with
  | nil => simp [genSeqEls] at h
  | cons el rest ih =>
    cases el with
    | mk m inner ann =>
      simp only [List.all_cons, Bool.and_eq_true] at hflat
      obtain ⟨hin, hrest⟩ := hflat
      cases inner with
      | some ict => simp [elInnerIsNone] at hin
      | none =>
        simp only [genSeqEls] at h
        split at h
        · rename_i e1 he1
          injection h with h
          subst h
          exact createProperty_error_eq _ _ _ he1
        · split at h
          · rename_i e1 he1
            injection h with h
            subst h
            exact ih _ hrest he1
          · exact Except.noConfusion h

theorem genBody_flat_notSeqError (p : Processor) (nm : String) (heritage : Option String)
    (attrs : Option (List IAttribute)) (seq : Option SequenceInfo) (ann : Option AnnNode)
    (hflat : flatSeq seq = true) :
    genBody p nm heritage attrs seq ann ≠ .error .sequenceInComplexContent := by
  intro h
  rw [genBody.eq_def] at h
  split at h
  · rename_i e1 he1
    injection h with h
    have he := genAttrs_error_eq _ _ _ he1
    rw [he] at h
    exact GenError.noConfusion h
  · exact Except.noConfusion h
  · split at h
    · exact Except.noConfusion h
    · exact Except.noConfusion h
  · rename_i x elList anyEl members0 p1 hga
    have hf : elList.all elInnerIsNone = true := by simpa [flatSeq] using hflat
    split at h
    · rename_i e1 he1
      injection h with h
      have he := genSeqEls_flat_error_eq _ _ _ hf he1
      rw [he] at h
      exact GenError.noConfusion h
    · exact Except.noConfusion h

/-- Claim C3: a complex type whose complexContent extension base name
(namespace prefix stripped) equals the type's own name is silently
discarded: generateComplexTypeInterface returns the state unchanged — no
declaration, nothing added to UsedTypes or DeclaredTypes, and no error. -/
theorem generateComplexTypeInterface_selfExtension (p : Processor) (ct : IComplexType)
    (ext : ExtensionInfo)
    (h1 : ct.complexContent = some ext)
    (h2 : ct.meta.name = some (localPart ext.base)) :
    generateComplexTypeInterface p ct = .ok p := by
  cases ct with
  | mk m cc attrs sq ann =>
    cases ext with
    | mk base extSeq extAttrs =>
      simp only [IComplexType.complexContent] at h1
      simp only [IComplexType.meta, ExtensionInfo.base] at h2
      rw [show generateComplexTypeInterface p (IComplexType.mk m cc attrs sq ann) =
        genCT p m (IComplexType.mk m cc attrs sq ann) from rfl, h1, genCT.eq_def, h2]
      simp

/-- Claim C3 witness: the self-extending type tt:A named A is dropped with
the processor state untouched. -/
theorem generateComplexTypeInterface_selfExtension_witness :
    generateComplexTypeInterface pF ctSelf = .ok pF :=
  generateComplexTypeInterface_selfExtension pF ctSelf (.mk "tt:A" none none) rfl (by decide)

/-- Claim C4, counterexample: a complex type carrying both a complexContent
extension and its own explicit sequence does not throw when the extension
base's local name equals the type's own name — the self-extension check
returns first and the run continues. -/
theorem generateComplexTypeInterface_bothConstructs_cex :
    ctSelfSeq.complexContent.isSome = true
  ∧ ctSelfSeq.sequence.isSome = true
  ∧ generateComplexTypeInterface pF ctSelfSeq = .ok pF := by
  refine ⟨rfl, rfl, ?_⟩
  rw [show generateComplexTypeInterface pF ctSelfSeq =
    genCT pF { name := some "A" } ctSelfSeq from rfl, genCT.eq_def]
  simp [ctSelfSeq]
  decide

/-- Claim C4, amended: a complex type with a complexContent extension whose
base local name differs from its own name and with its own explicit
sequence throws the fatal sequence-in-complexContent error; with an
extension but no own sequence the fatal error is not raised, provided the
extension's sequence elements carry no nested inline complex types (a
nested inline type is generated recursively and may itself trigger the same
fatal error). -/
theorem generateComplexTypeInterface_bothConstructs :
    (∀ (p : Processor) (ct : IComplexType) (ext : ExtensionInfo) (nm : String),
      ct.complexContent = some ext → ct.meta.name = some nm →
      nm ≠ localPart ext.base → ct.sequence.isSome = true →
      generateComplexTypeInterface p ct = .error .sequenceInComplexContent)
  ∧ (∀ (p : Processor) (ct : IComplexType) (ext : ExtensionInfo),
      ct.complexContent = some ext → ct.sequence = none →
      flatSeq ext.sequence = true →
      generateComplexTypeInterface p ct ≠ .error .sequenceInComplexContent) := by
  constructor
  · intro p ct ext nm h1 h2 hne hseq
    cases ct with
    | mk m cc attrs sq ann =>
      cases ext with
      | mk base extSeq extAttrs =>
        simp only [IComplexType.complexContent] at h1
        simp only [IComplexType.meta] at h2
        simp only [IComplexType.sequence] at hseq
        simp only [ExtensionInfo.base] at hne
        rw [show generateComplexTypeInterface p (IComplexType.mk m cc attrs sq ann) =
          genCT p m (IComplexType.mk m cc attrs sq ann) from rfl, h1, genCT.eq_def, h2]
        simp [hne, hseq]
  · intro p ct ext h1 h2 hflat
    cases ct with
    | mk m cc attrs sq ann =>
      cases ext with
      | mk base extSeq extAttrs =>
        simp only [IComplexType.complexContent] at h1
        simp only [IComplexType.sequence] at h2
        simp only [ExtensionInfo.sequence] at hflat
        intro hcc
        rw [show generateComplexTypeInterface p (IComplexType.mk m cc attrs sq ann) =
          genCT p m (IComplexType.mk m cc attrs sq ann) from rfl, h1, h2, genCT.eq_def] at hcc
        cases hm : m.name with
        | none =>
          rw [hm] at hcc
          simp at hcc
        | some nm =>
          rw [hm] at hcc
          by_cases hself : nm = localPart base
          · simp [hself] at hcc
          · simp only [hself, if_false] at hcc
            simp at hcc
            exact genBody_flat_notSeqError _ _ _ _ _ _ hflat hcc

/-- Claim C4 witness: the extension-plus-own-sequence type throws, the
extension-without-own-sequence type does not. -/
theorem generateComplexTypeInterface_bothConstructs_witness :
    generateComplexTypeInterface pF ctExtSeq = .error .sequenceInComplexContent
  ∧ generateComplexTypeInterface pF ctExtNoSeq ≠ .error .sequenceInComplexContent :=
  ⟨generateComplexTypeInterface_bothConstructs.1 pF ctExtSeq (.mk "tt:B" none none) "A"
      rfl rfl (by decide) rfl,
   generateComplexTypeInterface_bothConstructs.2 pF ctExtNoSeq (.mk "tt:B" none none)
      rfl rfl rfl⟩

/-- Claim C5, counterexample: a complex type named Capabilities whose only
content is an unrestricted wildcard emits no declaration at all — the
name-keyed early return fires before the wildcard handling. -/
theorem generateComplexTypeInterface_wildcardOnly_cex :
    generateComplexTypeInterface pF ctWildCap = .ok pF ∧ pF.nodes = [] := by
  constructor
  · rw [show generateComplexTypeInterface pF ctWildCap =
      genCT pF { name := some "Capabilities" } ctWildCap from rfl, genCT.eq_def]
    simp [ctWildCap, genBody, genAttrs]
  · rfl

/-- Claim C5, amended: for every complex type not named Capabilities whose
only content is a sequence containing an unrestricted-namespace wildcard
and no elements, generateComplexTypeInterface emits an interface whose
members are exactly one index-signature member with string key and the
universal unknown value type. -/
theorem generateComplexTypeInterface_wildcardOnly (p : Processor) (ct : IComplexType)
    (nm : String) (anyI : AnyInfo)
    (h1 : ct.meta.name = some nm) (h2 : nm ≠ "Capabilities")
    (h3 : ct.complexContent = none) (h4 : ct.attrs = none)
    (h5 : ct.sequence = some (.mk none (some anyI)))
    (h6 : anyI.nspace = some "##any") :
    generateComplexTypeInterface p ct =
      .ok (addNode p nm (annotateNode ct.ann (.interfaceDecl (cleanName nm) none
        [annotateProp anyI.ann
          { name := "[key: string]", questionToken := false, type := .ref "unknown" }]))) := by
  cases ct with
  | mk m cc attrs sq ann =>
    simp only [IComplexType.meta] at h1
    simp only [IComplexType.complexContent] at h3
    simp only [IComplexType.attrs] at h4
    simp only [IComplexType.sequence] at h5
    simp only [IComplexType.ann]
    rw [show generateComplexTypeInterface p (IComplexType.mk m cc attrs sq ann) =
      genCT p m (IComplexType.mk m cc attrs sq ann) from rfl, h3, h4, h5, genCT.eq_def, h1]
    simp [genBody, genAttrs, h2, wildcardMembers, h6]

/-- Claim C5 witness: the wildcard-only type Foo yields an interface with
exactly the one open member. -/
theorem generateComplexTypeInterface_wildcardOnly_witness :
    generateComplexTypeInterface pF ctWild =
      .ok (addNode pF "Foo" (annotateNode ctWild.ann (.interfaceDecl (cleanName "Foo") none
        [annotateProp anyAll.ann
          { name := "[key: string]", questionToken := false, type := .ref "unknown" }]))) :=
  generateComplexTypeInterface_wildcardOnly pF ctWild "Foo" anyAll rfl (by decide) rfl rfl rfl rfl

/-- Claim C10: the name-keyed special cases of generation.  A complex type
named Capabilities whose sequence carries no element array is dropped even
when the sequence holds a wildcard; the devicemgmt top-level element
Capabilities of type tds:DeviceServiceCapabilities produces no inheriting
alias; and outside those keys the behavior is uniform: any other name in
the same wildcard shape emits its interface, and any other element with a
truthy type reference (and no self-inheritance) emits its alias. -/
theorem nameKeyedSpecialCases :
    (∀ (p : Processor) (ct : IComplexType) (anyEl : Option AnyInfo),
      ct.meta.name = some "Capabilities" → ct.complexContent = none →
      ct.attrs = none → ct.sequence = some (.mk none anyEl) →
      generateComplexTypeInterface p ct = .ok p)
  ∧ (∀ (p : Processor) (el : IElement),
      p.fileName = "devicemgmt" → el.complexType = none →
      el.meta.name = some "Capabilities" →
      el.meta.type = some "tds:DeviceServiceCapabilities" →
      generateElementType p el = .ok p)
  ∧ (∀ (p : Processor) (ct : IComplexType) (nm : String) (anyEl : Option AnyInfo),
      ct.meta.name = some nm → nm ≠ "Capabilities" → ct.complexContent = none →
      ct.attrs = none → ct.sequence = some (.mk none anyEl) →
      generateComplexTypeInterface p ct =
        .ok (addNode p nm (annotateNode ct.ann
          (.interfaceDecl (cleanName nm) none (wildcardMembers anyEl)))))
  ∧ (∀ (p : Processor) (el : IElement) (t nm : String),
      el.complexType = none → el.meta.type = some t → t ≠ "" →
      el.meta.name = some nm →
      ¬(p.fileName = "devicemgmt" ∧ nm = "Capabilities" ∧ t = "tds:DeviceServiceCapabilities") →
      cleanName nm ≠ localPart (cleanName t) →
      generateElementType p el =
        .ok (addNode (extendInterface p (localPart (cleanName t))).1 (cleanName nm)
          (annotateNode el.ann
            (.interfaceDecl (cleanName nm) (extendInterface p (localPart (cleanName t))).2 [])))) := by
  refine ⟨?_, ?_, ?_, ?_⟩
  · intro p ct anyEl h1 h3 h4 h5
    cases ct with
    | mk m cc attrs sq ann =>
      simp only [IComplexType.meta] at h1
      simp only [IComplexType.complexContent] at h3
      simp only [IComplexType.attrs] at h4
      simp only [IComplexType.sequence] at h5
      rw [show generateComplexTypeInterface p (IComplexType.mk m cc attrs sq ann) =
        genCT p m (IComplexType.mk m cc attrs sq ann) from rfl, h3, h4, h5, genCT.eq_def, h1]
      simp [genBody, genAttrs]
  · intro p el hfn hct hnm hty
    have hf : jsFalsy (some "tds:DeviceServiceCapabilities") = false := by decide
    simp only [generateElementType, hct, hty, hnm, hfn, jsStr, hf, Bool.false_eq_true,
      if_false]
    simp
  · intro p ct nm anyEl h1 h2 h3 h4 h5
    cases ct with
    | mk m cc attrs sq ann =>
      simp only [IComplexType.meta] at h1
      simp only [IComplexType.complexContent] at h3
      simp only [IComplexType.attrs] at h4
      simp only [IComplexType.sequence] at h5
      simp only [IComplexType.ann]
      rw [show generateComplexTypeInterface p (IComplexType.mk m cc attrs sq ann) =
        genCT p m (IComplexType.mk m cc attrs sq ann) from rfl, h3, h4, h5, genCT.eq_def, h1]
      simp [genBody, genAttrs, h2]
  · intro p el t nm hct hty htne hnm hnc hher
    have hfalse : jsFalsy (some t) = false := by
      unfold jsFalsy
      cases t with
      | mk data =>
        cases data with
        | nil => exact absurd rfl htne
        | cons a as => rfl
    have hb : ((p.fileName == "devicemgmt") && (el.meta.name == some "Capabilities") &&
        (t == "tds:DeviceServiceCapabilities")) = false := by
      by_contra hbb
      rw [Bool.not_eq_false, Bool.and_eq_true, Bool.and_eq_true] at hbb
      obtain ⟨⟨b1, b2⟩, b3⟩ := hbb
      have b1e := eq_of_beq b1
      have b2e := eq_of_beq b2
      have b3e := eq_of_beq b3
      rw [hnm] at b2e
      injection b2e with b2f
      exact hnc ⟨b1e, b2f, b3e⟩
    simp only [generateElementType, hct, hty, jsStr, hfalse, Bool.false_eq_true, if_false,
      hb, hnm]
    simp [hher]
    intro hfn hnmc htc
    exact absurd ⟨hfn, hnmc, htc⟩ hnc

/-- Claim C10 witness: all four name-keyed facts evaluated on concrete
inputs — the Capabilities wildcard type, the devicemgmt Capabilities
element, the Foo wildcard type, and a plain alias element. -/
theorem nameKeyedSpecialCases_witness :
    generateComplexTypeInterface pF ctWildCap = .ok pF
  ∧ generateElementType pDev elCapDev = .ok pDev
  ∧ generateComplexTypeInterface pF ctWild =
      .ok (addNode pF "Foo" (annotateNode ctWild.ann
        (.interfaceDecl (cleanName "Foo") none (wildcardMembers (some anyAll)))))
  ∧ generateElementType pF elAlias =
      .ok (addNode (extendInterface pF (localPart (cleanName "tt:Base"))).1 (cleanName "E")
        (annotateNode elAlias.ann
          (.interfaceDecl (cleanName "E") (extendInterface pF (localPart (cleanName "tt:Base"))).2 []))) :=
  ⟨nameKeyedSpecialCases.1 pF ctWildCap (some anyAll) rfl rfl rfl rfl,
   nameKeyedSpecialCases.2.1 pDev elCapDev rfl rfl rfl rfl,
   nameKeyedSpecialCases.2.2.1 pF ctWild "Foo" (some anyAll) rfl (by decide) rfl rfl rfl,
   nameKeyedSpecialCases.2.2.2 pF elAlias "tt:Base" "E" rfl rfl (by decide) rfl (by decide)
     (by decide)⟩

theorem addNode_links (p : Processor) (nm : String) (node : TsNode) :
    (addNode p nm node).links =
      if (p.links.lookup nm).isSome then p.links else mapSet p.links nm p.fileName := by
  unfold addNode
  split <;> split <;> rfl

theorem lookup_append_some (l1 l2 : Links) (k : String) (m : String)
    (h : l1.lookup k = some m) : (l1 ++ l2).lookup k = some m := by
  induction l1 with
  | nil => simp [List.lookup] at h
  | cons pr rest ih =>
    cases pr with
    | mk a b =>
      simp only [List.cons_append, List.lookup] at h ⊢
      cases hab : (k == a) with
      | true =>
        rw [hab] at h
        exact h
      | false =>
        rw [hab] at h
        exact ih h

theorem addNode_lookup_keep (p : Processor) (nm : String) (node : TsNode)
    (k : String) (m : String) (h : p.links.lookup k = some m) :
    (addNode p nm node).links.lookup k = some m := by
  rw [addNode_links]
  cases hs : (p.links.lookup nm).isSome with
  | true => simpa using h
  | false =>
    have hnone : p.links.lookup nm = none := by
      cases hl : p.links.lookup nm with
      | none => rfl
      | some v => rw [hl] at hs; simp at hs
    simp only [Bool.false_eq_true, if_false]
    unfold mapSet
    rw [hnone]
    simp only [Option.isSome_none, Bool.false_eq_true, if_false]
    exact lookup_append_some _ _ _ _ h

/-- Claim C2, counterexample: a second document that declares a name the
registry already maps to an earlier module keeps the earlier module as the
canonical owner, but the second document's declaration is NOT dropped: the
name joins its own DeclaredTypes and the node is emitted into its own
module. -/
theorem addNode_crossDocument_cex :
    pDocB.links.lookup "T" = some "fileA"
  ∧ pDocB.declaredTypes = ["T"]
  ∧ pDocB.nodes = [nodeB] := ⟨rfl, rfl, rfl⟩

/-- Claim C2, amended: when a second document declares a name the shared
registry already maps to the first document's module, the first document
remains the canonical owner; the second document's declaration is
nevertheless added to its own DeclaredTypes and emitted into its own node
list (the drop only applies to duplicates within one document), and since
the name is then locally declared it never appears in the second document's
ImportsNeeded — its references resolve to the local declaration and no
clause bringing it in from the first module is generated. -/
theorem addNode_crossDocument (p : Processor) (nm : String) (node : TsNode) (m : String)
    (h1 : p.links.lookup nm = some m)
    (h2 : p.declaredTypes.contains nm = false) :
    (addNode p nm node).links.lookup nm = some m
  ∧ (addNode p nm node).declaredTypes.contains nm = true
  ∧ (addNode p nm node).nodes = p.nodes ++ [node]
  ∧ nm ∉ importsNeeded (addNode p nm node) := by
  have hnc : ¬(p.declaredTypes.contains nm = true) := by
    rw [h2]
    simp
  have hdecl : (addNode p nm node).declaredTypes = p.declaredTypes ++ [nm] := by
    unfold addNode
    rw [if_neg hnc]
  have hcontains : (addNode p nm node).declaredTypes.contains nm = true := by
    rw [hdecl]
    exact List.elem_eq_true_of_mem (List.mem_append_right _ (List.mem_singleton.mpr rfl))
  refine ⟨addNode_lookup_keep p nm node nm m h1, hcontains, ?_, ?_⟩
  · unfold addNode
    rw [if_neg hnc]
  · intro hmem
    unfold importsNeeded at hmem
    rw [List.mem_filter] at hmem
    obtain ⟨_, hpred⟩ := hmem
    rw [hcontains] at hpred
    simp at hpred

/-- Claim C2 witness: the cross-document declaration facts evaluated on the
concrete two-document scenario. -/
theorem addNode_crossDocument_witness :
    (addNode pDocB0 "T" nodeB).links.lookup "T" = some "fileA"
  ∧ (addNode pDocB0 "T" nodeB).declaredTypes.contains "T" = true
  ∧ (addNode pDocB0 "T" nodeB).nodes = pDocB0.nodes ++ [nodeB]
  ∧ "T" ∉ importsNeeded (addNode pDocB0 "T" nodeB) :=
  addNode_crossDocument pDocB0 "T" nodeB "fileA" (by decide) (by decide)

/-- Claim C7: the Type Registry is write-once — a single addNode call never
replaces or removes an existing mapping, and across any sequence of addNode
calls from any modules sharing the registry, a name once mapped to a module
stays mapped to it. -/
theorem links_writeOnce :
    (∀ (p : Processor) (nm : String) (node : TsNode) (k m : String),
      p.links.lookup k = some m → (addNode p nm node).links.lookup k = some m)
  ∧ (∀ (calls : List (String × String × TsNode)) (links : Links) (k m : String),
      links.lookup k = some m → (runAddNodes links calls).lookup k = some m) := by
  constructor
  · exact addNode_lookup_keep
  · intro calls
    induction calls with
    | nil => intro links k m h; simpa [runAddNodes] using h
    | cons c rest ih =>
      intro links k m h
      cases c with
      | mk fn pr =>
        cases pr with
        | mk nm node =>
          simp only [runAddNodes]
          exact ih _ _ _ (addNode_lookup_keep _ _ _ _ _ h)

/-- Claim C7 witness: the mapping fileA owns T survives a concrete
interleaving of later addNode calls from other modules. -/
theorem links_writeOnce_witness :
    (runAddNodes pDocA.links callsW).lookup "T" = some "fileA" :=
  links_writeOnce.2 callsW pDocA.links "T" "fileA" (by decide)

theorem groupInsert_mem (imp : List (String × List String)) (fn t fn' : String)
    (ts' : List String) (h : (fn', ts') ∈ groupInsert imp fn t) (u : String) (hu : u ∈ ts') :
    (∃ ts0, (fn', ts0) ∈ imp ∧ u ∈ ts0) ∨ (fn' = fn ∧ u = t) := by
  unfold groupInsert at h
  split at h
  · rw [List.mem_map] at h
    obtain ⟨pr, hpr, hf⟩ := h
    by_cases hk : pr.1 = fn
    · rw [if_pos hk] at hf
      have h1 : pr.1 = fn' := congrArg Prod.fst hf
      have h2 : pr.2 ++ [t] = ts' := congrArg Prod.snd hf
      rw [← h2, List.mem_append] at hu
      cases hu with
      | inl hu1 =>
        left
        refine ⟨pr.2, ?_, hu1⟩
        rw [← h1]
        exact hpr
      | inr hu2 =>
        right
        exact ⟨h1.symm.trans hk, by simpa using hu2⟩
    · rw [if_neg hk] at hf
      left
      exact ⟨ts', hf ▸ hpr, hu⟩
  · rw [List.mem_append] at h
    cases h with
    | inl h1 =>
      left
      exact ⟨ts', h1, hu⟩
    | inr h2 =>
      right
      simp only [List.mem_singleton, Prod.mk.injEq] at h2
      obtain ⟨ha, hb⟩ := h2
      refine ⟨ha, ?_⟩
      rw [hb] at hu
      simpa using hu

theorem computeImportsAux_mem (links : Links) :
    ∀ (diff : List String) (imp : List (String × List String)) (ws : List String)
      (fn : String) (ts : List String),
      (fn, ts) ∈ (computeImportsAux links imp ws diff).1 →
      ∀ u ∈ ts,
        (∃ ts0, (fn, ts0) ∈ imp ∧ u ∈ ts0) ∨ (u ∈ diff ∧ truthyLookup links u = some fn) := by
  intro diff
  induction diff with
  | nil =>
    intro imp ws fn ts h u hu
    left
    exact ⟨ts, h, hu⟩
  | cons t rest ih =>
    intro imp ws fn ts h u hu
    simp only [computeImportsAux] at h
    cases htl : truthyLookup links t with
    | none =>
      rw [htl] at h
      have hres := ih imp (ws ++ [t]) fn ts h u hu
      cases hres with
      | inl hl => left; exact hl
      | inr hr => right; exact ⟨List.mem_cons_of_mem _ hr.1, hr.2⟩
    | some fn0 =>
      rw [htl] at h
      have hres := ih (groupInsert imp fn0 t) ws fn ts h u hu
      cases hres with
      | inl hl =>
        obtain ⟨ts0, hmem, hu0⟩ := hl
        have hg := groupInsert_mem imp fn0 t fn ts0 hmem u hu0
        cases hg with
        | inl hll => left; exact hll
        | inr hlr =>
          right
          obtain ⟨hfn, hut⟩ := hlr
          subst hut
          refine ⟨List.mem_cons_self _ _, ?_⟩
          rw [hfn]
          exact htl
      | inr hr => right; exact ⟨List.mem_cons_of_mem _ hr.1, hr.2⟩

theorem computeImportsAux_warns (links : Links) :
    ∀ (diff : List String) (imp : List (String × List String)) (ws : List String),
      (computeImportsAux links imp ws diff).2 =
        ws ++ diff.filter (fun t => (truthyLookup links t).isNone) := by
  intro diff
  induction diff with
  | nil =>
    intro imp ws
    simp [computeImportsAux]
  | cons t rest ih =>
    intro imp ws
    simp only [computeImportsAux]
    cases htl : truthyLookup links t with
    | none =>
      rw [ih]
      simp [List.filter_cons, htl]
    | some fn0 =>
      rw [ih]
      simp [List.filter_cons, htl]

theorem groupInsert_keys (imp : List (String × List String)) (fn t : String) :
    (groupInsert imp fn t).map Prod.fst =
      if (imp.lookup fn).isSome then imp.map Prod.fst else imp.map Prod.fst ++ [fn] := by
  unfold groupInsert
  split
  · rw [List.map_map]
    apply List.map_congr_left
    intro pr _
    by_cases hk : pr.1 = fn <;> simp [hk]
  · simp

theorem lookup_none_not_mem (imp : List (String × List String)) (fn : String)
    (h : imp.lookup fn = none) : fn ∉ imp.map Prod.fst := by
  induction imp with
  | nil => simp
  | cons pr rest ih =>
    cases pr with
    | mk a b =>
      simp only [List.lookup] at h
      cases hab : (fn == a) with
      | true =>
        rw [hab] at h
        exact Option.noConfusion h
      | false =>
        rw [hab] at h
        simp only [List.map_cons, List.mem_cons]
        rintro (h1 | h2)
        · rw [h1] at hab
          simp at hab
        · exact ih h h2

theorem computeImportsAux_keys_nodup (links : Links) :
    ∀ (diff : List String) (imp : List (String × List String)) (ws : List String),
      (imp.map Prod.fst).Nodup →
      ((computeImportsAux links imp ws diff).1.map Prod.fst).Nodup := by
  intro diff
  induction diff with
  | nil =>
    intro imp ws h
    simpa [computeImportsAux] using h
  | cons t rest ih =>
    intro imp ws h
    simp only [computeImportsAux]
    cases htl : truthyLookup links t with
    | none => exact ih imp (ws ++ [t]) h
    | some fn0 =>
      apply ih
      rw [groupInsert_keys]
      cases hl : (imp.lookup fn0).isSome with
      | true => simpa using h
      | false =>
        have hnone : imp.lookup fn0 = none := by
          cases hll : imp.lookup fn0 with
          | none => rfl
          | some v => rw [hll] at hl; simp at hl
        have hnm := lookup_none_not_mem imp fn0 hnone
        simp only [Bool.false_eq_true, if_false]
        rw [List.nodup_append]
        exact ⟨h, List.nodup_singleton _, by simpa using hnm⟩

/-- Claim C6: suffix computes ImportsNeeded as the set difference UsedTypes
minus DeclaredTypes, resolves each name through the registry, groups the
resolved names by owning module into one import clause per module (keys are
pairwise distinct) prepended with a separator to the declaration list,
appends a warning for each unresolvable name and omits it from the imports
without aborting; every imported name was used, was not declared locally,
and resolves to its clause's module — so a module never imports a type it
declares itself. -/
theorem suffix_importResolution (p : Processor) (links : Links) :
    (suffix p links).nodes =
      ((computeImports links (importsNeeded p)).1.map
        (fun pr => ({ kind := .importDecl pr.1 pr.2 } : TsNode)))
      ++ ({ kind := .identifier "\n" } : TsNode) :: p.nodes
  ∧ (suffix p links).warnings =
      p.warnings ++ (importsNeeded p).filter (fun t => (truthyLookup links t).isNone)
  ∧ (∀ fn ts, (fn, ts) ∈ (computeImports links (importsNeeded p)).1 →
      ∀ t ∈ ts, t ∈ p.usedTypes ∧ t ∉ p.declaredTypes ∧ truthyLookup links t = some fn)
  ∧ ((computeImports links (importsNeeded p)).1.map Prod.fst).Nodup := by
  refine ⟨rfl, ?_, ?_, ?_⟩
  · show p.warnings ++ (computeImports links (importsNeeded p)).2 = _
    have hw := computeImportsAux_warns links (importsNeeded p) [] []
    simp only [List.nil_append] at hw
    rw [show (computeImports links (importsNeeded p)).2 =
      (computeImportsAux links [] [] (importsNeeded p)).2 from rfl, hw]
  · intro fn ts hmem t ht
    have hres := computeImportsAux_mem links (importsNeeded p) [] [] fn ts hmem t ht
    cases hres with
    | inl hl =>
      obtain ⟨ts0, h0, _⟩ := hl
      simp at h0
    | inr hr =>
      obtain ⟨hin, htl⟩ := hr
      unfold importsNeeded at hin
      rw [List.mem_filter] at hin
      obtain ⟨hused, hpred⟩ := hin
      refine ⟨hused, ?_, htl⟩
      intro hd
      have hel := List.elem_eq_true_of_mem hd
      rw [show p.declaredTypes.contains t = p.declaredTypes.elem t from rfl, hel] at hpred
      simp at hpred
  · exact computeImportsAux_keys_nodup links (importsNeeded p) [] [] (by simp)

/-- Claim C6 witness: in a module that used A, B, C and declared B, with a
registry owning A and B, the resolved import fact for A holds with A used,
not locally declared, and owned by lib. -/
theorem suffix_importResolution_witness :
    "A" ∈ pSuf.usedTypes ∧ "A" ∉ pSuf.declaredTypes ∧ truthyLookup linksW "A" = some "lib" :=
  (suffix_importResolution pSuf linksW).2.2.1 "lib" ["A"] (by decide) "A" (by decide)
